import Mathlib

/-!
Shallow embedding of the core logic of the qkbot repository
(`deploy_package/quark_app.py`, `deploy_package/quark_manager.py`) and
proofs about it.  Pure fragments of the Python source are translated into
executable Lean definitions; network calls are modelled by passing the
backend's responses in as explicit parameters, and the persistent remote
folder hierarchy is modelled as a finitely-branching tree.
-/

/- ------------------------------------------------------------------
   Generic string helpers mirroring the Python primitives used by the
   source (`str.lower()` and the `in` substring operator).
------------------------------------------------------------------- -/

/-- Python `str.lower()`: lower-case every character. -/
def pyLower (s : String) : String := String.mk (s.data.map Char.toLower)

/-- Element-wise test that the first list starts the second. -/
def listStartsWithB {α : Type} [DecidableEq α] : List α → List α → Bool
  | [], _ => true
  | _ :: _, [] => false
  | a :: as, b :: bs => a = b && listStartsWithB as bs

/-- Contiguous-sublist test (`needle` occurs somewhere inside `hay`). -/
def listContainsB {α : Type} [DecidableEq α] (needle : List α) : List α → Bool
  | [] => listStartsWithB needle []
  | b :: bs => listStartsWithB needle (b :: bs) || listContainsB needle bs

/-- Python `needle in hay` on strings: contiguous substring test. -/
def strIn (needle hay : String) : Bool := listContainsB needle.data hay.data

/- ------------------------------------------------------------------
   §  Signature verification  (quark_app.py, `verify_signature`)

   The SHA-1 call is a library primitive (`hashlib.sha1`), so it is kept
   abstract: every definition and theorem is parametric in the digest
   function `sha1 : String → String`.
------------------------------------------------------------------- -/

/-- The string actually digested: the four values placed in a list, sorted
lexicographically (string order, not numeric), then concatenated.
Mirrors `tmp_list = [token, timestamp, nonce, echostr]; tmp_list.sort();
tmp_str = ''.join(tmp_list)`. -/
def signatureBase (token timestamp nonce echostr : String) : String :=
  String.join (List.insertionSort (fun x y => x ≤ y) [token, timestamp, nonce, echostr])

/-- `verify_signature` from quark_app.py: empty configured token short-circuits
to `true`; otherwise the SHA-1 hex digest of the sorted concatenation is
compared case-insensitively with the delivered signature. -/
def verify_signature (sha1 : String → String)
    (token timestamp nonce echostr msg_signature : String) : Bool :=
  if token = "" then
    true
  else
    pyLower (sha1 (signatureBase token timestamp nonce echostr)) == pyLower msg_signature

/- ------------------------------------------------------------------
   §  Search-result display pagination
      (quark_app.py, `_display_search_results_page`)
------------------------------------------------------------------- -/

/-- `items_per_page = 7`. -/
def itemsPerPage : Nat := 7

/-- `total_pages = (total + items_per_page - 1) // items_per_page`. -/
def totalPagesOf (total : Nat) : Nat := (total + itemsPerPage - 1) / itemsPerPage

/-- The pagination core of `_display_search_results_page`: given the cached
total number of matches and a requested page number, returns the page
actually displayed together with the start/end indices of the slice shown,
or `none` when the function returns early because the result set is empty.
The requested page is clamped into `[1, total_pages]`. -/
def displaySearchResultsPage (total : Nat) (page : Int) : Option (Int × Nat × Nat) :=
  if total = 0 then
    none
  else
    let totalPages := totalPagesOf total
    let currentPage : Int :=
      if page < 1 then 1
      else if page > (totalPages : Int) then (totalPages : Int)
      else page
    let startIdx : Nat := (currentPage - 1).toNat * itemsPerPage
    let endIdx : Nat := min (startIdx + itemsPerPage) total
    some (currentPage, startIdx, endIdx)

/- ------------------------------------------------------------------
   §  Transfer-task polling  (quark_manager.py, `submit_task`)

   Each loop iteration performs exactly one network call
   (`GET .../clouddrive/task`); the backend's answers are modelled as a
   stream `resp : Nat → TaskResp` indexed by the attempt number.
------------------------------------------------------------------- -/

/-- The fields of the backend's task-poll JSON answer that `submit_task`
inspects: `message`, `code`, and `data.status`. -/
structure TaskResp where
  message : String
  code : Int
  status : Int
deriving DecidableEq, Repr

/-- Outcome of the polling loop. -/
inductive SubmitResult where
  /-- `return json_data` at 0-based attempt `i` (message ok, status 2). -/
  | ok (i : Nat)
  /-- `raise Exception("转存失败，网盘容量不足")` (code 32003 + capacity limit). -/
  | errCapacity
  /-- `raise Exception("网盘文件夹不存在")` (code 41013). -/
  | errFolderMissing
  /-- `raise Exception(f"转存失败：{message}")` (any other non-ok message). -/
  | errOther (msg : String)
  /-- `raise Exception("转存任务超时")` after the retry budget is exhausted. -/
  | timeout
deriving DecidableEq, Repr

/-- One run of the `for i in range(retry)` loop body starting at attempt `i`
with `remaining` iterations left.  Returns the outcome together with the
number of network calls performed from attempt `i` on. -/
def submitTaskFrom (resp : Nat → TaskResp) (i : Nat) : Nat → SubmitResult × Nat
  | 0 => (.timeout, 0)
  | remaining + 1 =>
    let r := resp i
    if r.message = "ok" then
      if r.status = 2 then (.ok i, 1)
      else
        -- message ok but task not finished: fall through to the next attempt
        let (res, calls) := submitTaskFrom resp (i + 1) remaining
        (res, calls + 1)
    else if r.code = 32003 && strIn "capacity limit" r.message then (.errCapacity, 1)
    else if r.code = 41013 then (.errFolderMissing, 1)
    else (.errOther r.message, 1)

/-- `submit_task(task_id, retry=50)`: poll the task up to `retry` times. -/
def submit_task (resp : Nat → TaskResp) (retry : Nat := 50) : SubmitResult × Nat :=
  submitTaskFrom resp 0 retry

/- ------------------------------------------------------------------
   §  Dedup guard  (quark_app.py, `AppHTTPHandler.do_POST`)

   `do_POST` hashes `f"{from_user}:{content}"` (MD5, a library call —
   modelled here by the formatted string itself), rejects the delivery if
   the hash is in `processing_messages`, otherwise adds it, handles the
   message, and in a `finally` block starts a timer thread that removes
   the hash 10 seconds after handling completes.  Deliveries are modelled
   as a time-ordered trace processed sequentially; the guard state is the
   set of active hashes paired with their scheduled removal times.
------------------------------------------------------------------- -/

/-- `hashlib.md5(f"{from_user}:{content}").hexdigest()`, with the digest
modelled by the (injectively formatted) input string. -/
def messageHash (fromUser content : String) : String := fromUser ++ ":" ++ content

/-- One inbound webhook delivery: its arrival time, the sender, the text
content, how long handling takes, and whether handling succeeds (the
`finally` block starts the removal timer either way). -/
structure Delivery where
  time : Nat
  fromUser : String
  content : String
  duration : Nat
  handledOk : Bool
deriving DecidableEq, Repr

/-- Guard state: active `(hash, removal time)` pairs. -/
abbrev DedupState := List (String × Nat)

/-- Process one delivery: entries whose removal timer has fired are gone;
a present hash means duplicate (rejected, state unchanged); otherwise the
hash is admitted and scheduled for removal 10 s after handling completes
(`time.sleep(10)` in the timer thread starts only once
`_handle_message` has returned, i.e. at `time + duration`). -/
def dedupStep (s : DedupState) (d : Delivery) : Bool × DedupState :=
  let active := s.filter (fun p => d.time < p.2)
  let h := messageHash d.fromUser d.content
  if (active.map Prod.fst).contains h then
    (false, active)
  else
    (true, (h, d.time + d.duration + 10) :: active)

/-- Run the guard over a whole trace, collecting each delivery's
admitted/rejected verdict. -/
def dedupTrace (ds : List Delivery) : List Bool × DedupState :=
  ds.foldl (fun (acc : List Bool × DedupState) d =>
    let (b, s) := dedupStep acc.2 d
    (acc.1 ++ [b], s)) ([], [])

/-- Modelled from the spec: §4.3 says the entry is removed "once a fixed
delay (10 seconds) has elapsed after admission", i.e. the removal time is
`time + 10` independent of the handling duration.  Kept only to compare
with the source-derived `dedupStep`. -/
def specDedupStep (s : DedupState) (d : Delivery) : Bool × DedupState :=
  let active := s.filter (fun p => d.time < p.2)
  let h := messageHash d.fromUser d.content
  if (active.map Prod.fst).contains h then
    (false, active)
  else
    (true, (h, d.time + 10) :: active)

/-- Trace semantics of the spec's wording of the guard. -/
def specDedupTrace (ds : List Delivery) : List Bool × DedupState :=
  ds.foldl (fun (acc : List Bool × DedupState) d =>
    let (b, s) := specDedupStep acc.2 d
    (acc.1 ++ [b], s)) ([], [])

/- ------------------------------------------------------------------
   §  Conditional sub-folder creation before a transfer
      (quark_app.py, `process_share_url` lines 424-456 and
       `process_text_with_links` lines 204-236)
------------------------------------------------------------------- -/

/-- One entry of the resolved share listing (`get_detail`), with the
fields the handler reads. -/
structure DetailItem where
  fid : String
  file_name : String
  dir : Bool
  share_fid_token : String
deriving DecidableEq, Repr

/-- `files_count = sum(1 for d in data_list if not d.get('dir', False))`. -/
def filesCount (dataList : List DetailItem) : Nat :=
  (dataList.filter (fun d => !d.dir)).length

/-- `folders_count = sum(1 for d in data_list if d.get('dir', False))`. -/
def foldersCount (dataList : List DetailItem) : Nat :=
  (dataList.filter (fun d => d.dir)).length

/-- Result of the pre-transfer folder planning: how many create-folder
backend calls were issued, the folder the transfer is pointed at, the
final `need_create_folder` flag, and the name requested for the new
folder (when a creation was attempted). -/
structure TransferPlan where
  createCalls : Nat
  targetFolder : String
  needCreateFolder : Bool
  requestedName : Option String
deriving DecidableEq, Repr

/-- The share-handling preamble: when share generation is on, the share id
is non-empty and the listing holds both files and folders, one sub-folder
named `转存_<timestamp>` is created under the destination and the transfer
target redirected there (falling back to the original folder when the
backend refuses the creation, `create_dir_in_folder` → `None`).
`createResult` is the backend's answer to that single creation call;
`dt` is `get_datetime('%Y%m%d_%H%M%S')`. -/
def planTransfer (generateShare : Bool) (pwdId : String) (dataList : List DetailItem)
    (folderId : String) (dt : String) (createResult : Option String) : TransferPlan :=
  if generateShare ∧ pwdId ≠ "" ∧ dataList ≠ [] ∧
      0 < filesCount dataList ∧ 0 < foldersCount dataList then
    let folderNameNew := "转存_" ++ dt
    match createResult with
    | some newFolderId =>
      { createCalls := 1, targetFolder := newFolderId,
        needCreateFolder := true, requestedName := some folderNameNew }
    | none =>
      { createCalls := 1, targetFolder := folderId,
        needCreateFolder := false, requestedName := some folderNameNew }
  else
    { createCalls := 0, targetFolder := folderId,
      needCreateFolder := false, requestedName := none }

/- ------------------------------------------------------------------
   §  Banned-keyword post-filtering
      (quark_manager.py `_filter_banned_files` + `save_share`,
       quark_app.py `_filter_banned_files`)

   The remote folder hierarchy is modelled as a finitely-branching tree:
   listing a folder yields its `FSEntry` children, and a folder entry
   carries the listing of its own sub-folder.
------------------------------------------------------------------- -/

/-- A node of the remote folder hierarchy, with the fields the filters
read, plus the node's own children (what `get_sorted_file_list` would
return for its fid). -/
inductive FSEntry where
  | mk (fid file_name : String) (dir : Bool) (file_type : Nat)
       (children : List FSEntry)

def FSEntry.fid : FSEntry → String
  | .mk f _ _ _ _ => f

def FSEntry.file_name : FSEntry → String
  | .mk _ n _ _ _ => n

def FSEntry.isDirB : FSEntry → Bool
  | .mk _ _ d ft _ => d || ft == 0

def FSEntry.children : FSEntry → List FSEntry
  | .mk _ _ _ _ c => c

/-- `any(k.lower() in name.lower() for k in banned_keywords)` —
case-insensitive keyword match (quark_manager.py line 319). -/
def ciMatch (banned : List String) (name : String) : Bool :=
  banned.any (fun k => strIn (pyLower k) (pyLower name))

/-- `any(k in name for k in self.banned_keywords)` — case-SENSITIVE
keyword match (quark_app.py line 381). -/
def csMatch (banned : List String) (name : String) : Bool :=
  banned.any (fun k => strIn k name)

/-- The collection phase of `QuarkPanFileManager._filter_banned_files`:
walk the folder tree; a matched entry's fid is collected for deletion and
its subtree is NOT descended into (`continue`); an unmatched directory is
descended into.  The source drives this with an explicit LIFO stack; the
structural recursion here visits the same folders and collects the same
fids (only the sequence order of unrelated subtrees differs). -/
def managerCollect (banned : List String) : List FSEntry → List String
  | [] => []
  | FSEntry.mk fid name d ft children :: rest =>
    if ciMatch banned name then fid :: managerCollect banned rest
    else if d || ft == 0 then managerCollect banned children ++ managerCollect banned rest
    else managerCollect banned rest

/-- `QuarkPanFileManager._filter_banned_files(folder_id)`: the set of fids
it deletes from the destination folder's tree.  With no configured
keywords it returns immediately without scanning. -/
def managerFilterDeleteFids (banned : List String) (folderContents : List FSEntry) :
    List String :=
  if banned = [] then [] else managerCollect banned folderContents

/-- `QuarkAppHandler._filter_banned_files(folder_id, saved_names)`: scans
only the top level of the destination folder and deletes entries whose
name is among the just-saved names AND matches a keyword
case-sensitively. -/
def appFilterDeleteFids (banned savedNames : List String) (items : List FSEntry) :
    List String :=
  if banned = [] ∨ savedNames = [] then []
  else
    (items.filter (fun e => savedNames.contains e.file_name && csMatch banned e.file_name)).map
      FSEntry.fid

/-- Modelled from the spec: §4.5 step 4 — "list the destination folder's
newly-added names and delete any whose name contains a configured banned
substring (case-insensitive)".  Kept only to compare with the
source-derived filters. -/
def specPostFilterDeleteFids (banned savedNames : List String) (items : List FSEntry) :
    List String :=
  (items.filter (fun e => savedNames.contains e.file_name && ciMatch banned e.file_name)).map
    FSEntry.fid

/- ------------------------------------------------------------------
   §  `QuarkPanFileManager.save_share`

   The network steps are parameters: `stoken` is `get_stoken`'s answer,
   `(isOwner, dataList)` is `get_detail`'s answer, `submitOutcome` is the
   polling outcome of the transfer task, and `folderContents` is the
   destination folder's tree at post-filter time.
------------------------------------------------------------------- -/

/-- What `save_share` returns on success, extended with two ghost fields:
`taskSubmitted` records that a transfer task was submitted, and
`deletedFids` records what the banned-keyword post-filter removed. -/
structure SaveShareResult where
  total : Nat
  files_count : Nat
  folders_count : Nat
  files_list : List String
  folders_list : List String
  fid_list : List String
  taskSubmitted : Bool
  deletedFids : List String
deriving DecidableEq, Repr

/-- `save_share` after the pwd_id extraction: the guard sequence
(no stoken → error; empty listing → error; own share → error; empty
folder id → error), then the transfer task, then — on success —
unconditionally the banned-keyword post-filter on the destination folder.
An `.error` value corresponds to a raised exception, and in every error
case no transfer task result is produced. -/
def save_share_core (stoken : String) (isOwner : Int) (dataList : List DetailItem)
    (folderId : String) (banned : List String) (folderContents : List FSEntry)
    (submitOutcome : SubmitResult) : Except String SaveShareResult :=
  if stoken = "" then .error "获取stoken失败，无法转存"
  else if dataList = [] then .error "分享链接中没有文件"
  else if isOwner = 1 then .error "网盘中已经存在该文件，无需再次转存"
  else if folderId = "" then .error "保存目录ID不合法，请重新设置"
  else
    match submitOutcome with
    | .ok _ =>
      .ok { total := dataList.length,
            files_count := filesCount dataList,
            folders_count := foldersCount dataList,
            files_list := (dataList.filter (fun d => !d.dir)).map DetailItem.file_name,
            folders_list := (dataList.filter (fun d => d.dir)).map DetailItem.file_name,
            fid_list := dataList.map DetailItem.fid,
            taskSubmitted := true,
            deletedFids := managerFilterDeleteFids banned folderContents }
    | .errCapacity => .error "转存失败，网盘容量不足"
    | .errFolderMissing => .error "网盘文件夹不存在"
    | .errOther m => .error ("转存失败：" ++ m)
    | .timeout => .error "转存任务超时"

/- ------------------------------------------------------------------
   §  Payload decryption: the 4-byte message-length field
      (quark_app.py, `decrypt_echostr` lines 998-1028)

   The plaintext after PKCS#7 unpadding and dropping the 16 random bytes
   is a byte list; bytes are Nats < 256.
------------------------------------------------------------------- -/

/-- Which interpretation of the length field was used. -/
inductive LenSource where
  | be
  | le
deriving DecidableEq, Repr

/-- `int.from_bytes(b, byteorder='big')`. -/
def bytesBE (b : List Nat) : Nat := b.foldl (fun a x => a * 256 + x) 0

/-- `int.from_bytes(b, byteorder='little')`. -/
def bytesLE (b : List Nat) : Nat := bytesBE b.reverse

/-- The message-extraction step of `decrypt_echostr`: read the 4-byte
length big-endian; when it exceeds the remaining byte count fall back to
little-endian (`msg_len < 0` is impossible for Python's unsigned
`from_bytes` and is omitted); when the little-endian value is also out of
range, fail.  Returns which interpretation was used, the message bytes,
and the trailing corp-id bytes. -/
def extractMsg (content : List Nat) : Except String (LenSource × List Nat × List Nat) :=
  if content.length < 4 then .error "消息内容太短"
  else
    let lenBytes := content.take 4
    let remaining := content.drop 4
    let msgLenBE := bytesBE lenBytes
    if remaining.length < msgLenBE then
      let msgLenLE := bytesLE lenBytes
      if msgLenLE ≤ remaining.length then
        .ok (.le, remaining.take msgLenLE, remaining.drop msgLenLE)
      else
        .error "消息长度解析失败"
    else
      .ok (.be, remaining.take msgLenBE, remaining.drop msgLenBE)

/- ------------------------------------------------------------------
   §  Recursive search  (quark_app.py, `_search_files_recursive`)

   The backend is an arbitrary listing function `L : fid → children`, so
   cyclic "hierarchies" (a folder graph with back-edges) are included.
   `_search_files_recursive` guards every call with
   `folder_id in visited_folders or current_depth >= max_depth`; here the
   guard of each recursive call into a sub-folder is inlined at its call
   site, and the top-level call's guard sits in `searchFilesRecursive`.
   A ghost expansion log `(fid, depth)` records every folder whose
   children were listed, at which depth.
------------------------------------------------------------------- -/

/-- One item of a `get_sorted_file_list` answer, with the fields the
search reads. -/
structure FItem where
  fid : String
  file_name : String
  dir : Bool
  file_type : Nat
  size : Nat
deriving DecidableEq, Repr

/-- A matched file: fid, name, size, and the path of the folder it was
found in. -/
structure SFileMatch where
  fid : String
  name : String
  size : Nat
  path : String
deriving DecidableEq, Repr

/-- A matched folder: fid, name, and the path of the folder it was found
in. -/
structure SFolderMatch where
  fid : String
  name : String
  path : String
deriving DecidableEq, Repr

/-- Combined result of a search call: matched files, matched folders, the
visited set after the call, and the ghost expansion log. -/
abbrev SearchResult :=
  List SFileMatch × List SFolderMatch × List String × List (String × Nat)

/-- The `for item in file_list` loop of `_search_files_recursive`,
scanning the children of a folder expanded at depth `d`: a name matched
case-insensitively is recorded (with path `current_path`, or `根目录` when
empty); every directory child is recursed into at depth `d + 1`, guarded
by the visited set and the depth bound.  The mutable Python `set` is
threaded through as `visited`. -/
def searchGo (L : String → List FItem) (kw : String) (maxDepth : Nat)
    (d : Nat) (children : List FItem) (path : String) (visited : List String) :
    SearchResult :=
  match children with
  | [] => ([], [], visited, [])
  | item :: rest =>
    let isDir := item.dir || item.file_type == 0
    let displayPath := if path = "" then "根目录" else path
    let matchedFiles : List SFileMatch :=
      if strIn (pyLower kw) (pyLower item.file_name) && !isDir then
        [⟨item.fid, item.file_name, item.size, displayPath⟩] else []
    let matchedFolders : List SFolderMatch :=
      if strIn (pyLower kw) (pyLower item.file_name) && isDir then
        [⟨item.fid, item.file_name, displayPath⟩] else []
    if isDir = true then
      let subPath := if path = "" then item.file_name else path ++ "/" ++ item.file_name
      if _h : item.fid ∈ visited ∨ maxDepth ≤ d + 1 then
        -- the recursive call's entry guard fires: it contributes nothing
        let (rf, rd, v2, log2) := searchGo L kw maxDepth d rest path visited
        (matchedFiles ++ rf, matchedFolders ++ rd, v2, log2)
      else
        let (sf, sd, v1, log1) :=
          searchGo L kw maxDepth (d + 1) (L item.fid) subPath (item.fid :: visited)
        let (rf, rd, v2, log2) := searchGo L kw maxDepth d rest path v1
        (matchedFiles ++ sf ++ rf, matchedFolders ++ sd ++ rd, v2,
          (item.fid, d + 1) :: (log1 ++ log2))
    else
      let (rf, rd, v2, log2) := searchGo L kw maxDepth d rest path visited
      (matchedFiles ++ rf, matchedFolders ++ rd, v2, log2)
termination_by (maxDepth - d, children.length)
decreasing_by
  all_goals simp_wf
  all_goals omega

/-- `_search_files_recursive(folder_id, keyword, root_path)` as called by
`search_files`: depth 0, fresh (empty) visited set, `max_depth = 10`.
Its entry guard (`folder_id in visited or 0 >= max_depth`) reduces to the
depth test because the fresh visited set is empty. -/
def searchFilesRecursive (L : String → List FItem) (kw folderId rootPath : String)
    (maxDepth : Nat := 10) : SearchResult :=
  if maxDepth ≤ 0 then ([], [], [], [])
  else
    let (fs, ds, v, log) := searchGo L kw maxDepth 0 (L folderId) rootPath [folderId]
    (fs, ds, v, (folderId, 0) :: log)

/-- The search-traversal invariant: for a call made with visited set
`visited` while scanning the children of a folder expanded at depth `d`,
the returned visited set is duplicate-free and is exactly the initial one
extended by the logged expansions, every folder is expanded at most once,
and every expansion happens at a depth strictly between `d` and
`maxDepth`. -/
def SearchInv (visited : List String) (d maxDepth : Nat) (r : SearchResult) : Prop :=
  r.2.2.1.Nodup ∧
  (∀ x, x ∈ r.2.2.1 ↔ x ∈ r.2.2.2.map Prod.fst ∨ x ∈ visited) ∧
  (r.2.2.2.map Prod.fst).Nodup ∧
  (∀ p ∈ r.2.2.2, p.1 ∉ visited ∧ d < p.2 ∧ p.2 < maxDepth)

/-- The entries of a destination folder tree that the manager filter's
scan reaches: an entry of the listing itself, or an entry reached by
descending through a case-insensitively UNMATCHED directory (a matched
directory is deleted whole and never descended into). -/
inductive InScan (banned : List String) : List FSEntry → FSEntry → Prop where
  | here {entries : List FSEntry} {e : FSEntry} :
      e ∈ entries → InScan banned entries e
  | deeper {entries : List FSEntry} {parent e : FSEntry} :
      parent ∈ entries → ciMatch banned parent.file_name = false →
      parent.isDirB = true → InScan banned parent.children e →
      InScan banned entries e

/- ==================================================================
   Theorems
================================================================== -/

/-- C8: Search-result display pagination groups the matches into pages of
7: for every non-empty result set of `n` matches the display succeeds
(never errors), the page count `totalPagesOf n` is the ceiling of `n / 7`
(characterized by the two inequalities), a requested page below 1 is
clamped to page 1, a requested page above the last page is clamped to the
last page, and an in-range request is honoured as is. -/
theorem search_pagination_clamps (n : Nat) (p : Int) (hn : 0 < n) :
    ∃ cp st en,
      displaySearchResultsPage n p = some (cp, st, en) ∧
      1 ≤ cp ∧ cp ≤ (totalPagesOf n : Int) ∧
      (p < 1 → cp = 1) ∧
      ((totalPagesOf n : Int) < p → cp = (totalPagesOf n : Int)) ∧
      (1 ≤ p → p ≤ (totalPagesOf n : Int) → cp = p) ∧
      n ≤ totalPagesOf n * itemsPerPage ∧
      (totalPagesOf n - 1) * itemsPerPage < n := by
  have hne : n ≠ 0 := Nat.pos_iff_ne_zero.mp hn
  simp only [displaySearchResultsPage, if_neg hne]
  refine ⟨_, _, _, rfl, ?_, ?_, ?_, ?_, ?_, ?_, ?_⟩ <;>
    simp only [totalPagesOf, itemsPerPage] <;>
    first
      | (split_ifs <;> omega)
      | omega

/-- Witness for C8 at the spec's own test vector: 16 results, requested
page 99 — the display succeeds and clamps to the last page, and the page
count is 3 (the ceiling of 16/7). -/
theorem search_pagination_clamps_witness :
    0 < 16 ∧
    (∃ cp st en,
      displaySearchResultsPage 16 99 = some (cp, st, en) ∧
      1 ≤ cp ∧ cp ≤ (totalPagesOf 16 : Int) ∧
      ((99 : Int) < 1 → cp = 1) ∧
      ((totalPagesOf 16 : Int) < 99 → cp = (totalPagesOf 16 : Int)) ∧
      (1 ≤ (99 : Int) → (99 : Int) ≤ (totalPagesOf 16 : Int) → cp = 99) ∧
      16 ≤ totalPagesOf 16 * itemsPerPage ∧
      (totalPagesOf 16 - 1) * itemsPerPage < 16) :=
  ⟨by decide, search_pagination_clamps 16 99 (by decide)⟩

/-- C9 counterexample: permuting which value sits in which argument
position does NOT always preserve the verification result.  With token
`"t"` and timestamp `""`, swapping the two puts the empty string in the
token position, and `verify_signature` then short-circuits to `true`
without comparing any digest, while the original call compares the digest
against a signature that does not match.  (The digest function is
irrelevant; a constant one exhibits the divergence.) -/
theorem verify_signature_perm_counterexample :
    List.Perm ["", "t", "n", "e"] ["t", "", "n", "e"] ∧
    verify_signature (fun _ => "zz") "t" "" "n" "e" "x" = false ∧
    verify_signature (fun _ => "zz") "" "t" "n" "e" "x" = true := by
  refine ⟨?_, ?_, ?_⟩ <;> decide

/-- C9 (amended): the computed digest input (and hence the digest) is
invariant under every permutation of the four values, and the
verification result is invariant under every permutation that preserves
whether the token argument is the empty string — in particular under all
permutations of four non-empty values.  (When a permutation moves an
empty string into the token slot, the configured-no-token escape returns
`true` instead of comparing digests.) -/
theorem verify_signature_perm_invariant (sha1 : String → String)
    (a b c d a' b' c' d' sig : String)
    (hperm : List.Perm [a', b', c', d'] [a, b, c, d])
    (htok : a' = "" ↔ a = "") :
    signatureBase a' b' c' d' = signatureBase a b c d ∧
    verify_signature sha1 a' b' c' d' sig = verify_signature sha1 a b c d sig := by
  have hbase : signatureBase a' b' c' d' = signatureBase a b c d := by
    unfold signatureBase
    congr 1
    refine List.eq_of_perm_of_sorted
      ((List.perm_insertionSort _ _).trans (hperm.trans (List.perm_insertionSort _ _).symm))
      (List.sorted_insertionSort _ _) (List.sorted_insertionSort _ _)
  refine ⟨hbase, ?_⟩
  unfold verify_signature
  by_cases h : a = ""
  · rw [if_pos h, if_pos (htok.mpr h)]
  · rw [if_neg h, if_neg (fun h' => h (htok.mp h')), hbase]

/-- Witness for C9 (amended) at a concrete permutation of four non-empty
strings. -/
theorem verify_signature_perm_invariant_witness :
    List.Perm ["b2", "a1", "c3", "d4"] ["a1", "b2", "c3", "d4"] ∧
    (("b2" : String) = "" ↔ ("a1" : String) = "") ∧
    (signatureBase "b2" "a1" "c3" "d4" = signatureBase "a1" "b2" "c3" "d4" ∧
     verify_signature (fun _ => "dg") "b2" "a1" "c3" "d4" "sig" =
       verify_signature (fun _ => "dg") "a1" "b2" "c3" "d4" "sig") :=
  ⟨by decide, by decide,
    verify_signature_perm_invariant (fun _ => "dg") "a1" "b2" "c3" "d4" "b2" "a1" "c3" "d4" "sig"
      (by decide) (by decide)⟩

/-- Helper: while every polled response is `ok` with a non-terminal
status, the loop consumes its whole budget and times out, performing
exactly `remaining` network calls. -/
theorem submitTaskFrom_pending (resp : Nat → TaskResp) :
    ∀ remaining k,
      (∀ i, k ≤ i → i < k + remaining → (resp i).message = "ok" ∧ (resp i).status ≠ 2) →
      submitTaskFrom resp k remaining = (.timeout, remaining) := by
  intro remaining
  induction remaining with
  | zero => intro k _; rfl
  | succ n ih =>
    intro k h
    have hk := h k (le_refl _) (by omega)
    have ih' := ih (k + 1) (fun i h1 h2 => h i (by omega) (by omega))
    simp only [submitTaskFrom, if_pos hk.1, if_neg hk.2, ih']

/-- Helper: the loop never performs more network calls than its budget. -/
theorem submitTaskFrom_calls_le (resp : Nat → TaskResp) :
    ∀ remaining k, (submitTaskFrom resp k remaining).2 ≤ remaining := by
  intro remaining
  induction remaining with
  | zero => intro k; simp [submitTaskFrom]
  | succ n ih =>
    intro k
    have h := ih (k + 1)
    simp only [submitTaskFrom]
    split_ifs <;> try simp
    cases heq : submitTaskFrom resp (k + 1) n with
    | mk res calls =>
      rw [heq] at h
      simp only [heq]
      simpa using Nat.succ_le_succ h

/-- Helper: the first response whose `message` is not `"ok"` aborts the
loop immediately — it is classified by its code (32003 + "capacity
limit" → capacity, 41013 → folder missing, anything else → generic
failure) and no further attempt is made. -/
theorem submitTaskFrom_abort (resp : Nat → TaskResp) :
    ∀ remaining k j, k ≤ j → j < k + remaining →
      (∀ i, k ≤ i → i < j → (resp i).message = "ok" ∧ (resp i).status ≠ 2) →
      (resp j).message ≠ "ok" →
      submitTaskFrom resp k remaining =
        (if (resp j).code = 32003 && strIn "capacity limit" (resp j).message then
           .errCapacity
         else if (resp j).code = 41013 then .errFolderMissing
         else .errOther (resp j).message, j - k + 1) := by
  intro remaining
  induction remaining with
  | zero => intro k j h1 h2; omega
  | succ n ih =>
    intro k j hkj hlt hpre hbad
    by_cases hjk : j = k
    · subst hjk
      have : j - j + 1 = 1 := by omega
      rw [this]
      simp only [submitTaskFrom, if_neg hbad]
      split_ifs <;> simp
    · have hk := hpre k (le_refl _) (by omega)
      have ih' := ih (k + 1) j (by omega) (by omega)
        (fun i hi1 hi2 => hpre i (by omega) hi2) hbad
      simp only [submitTaskFrom, if_pos hk.1, if_neg hk.2, ih']
      refine congrArg _ ?_
      omega

/-- C2 counterexample: a non-success response whose code is neither 32003
nor 41013 is NOT retried until the budget is exhausted — the very first
such response aborts the loop (1 network call out of a budget of 50),
contradicting "every other non-success response code is retried on
subsequent polling attempts until the retry budget is exhausted". -/
theorem submit_task_retry_counterexample :
    submit_task (fun _ => TaskResp.mk "boom" 500 0) 50 = (.errOther "boom", 1) ∧
    (submit_task (fun _ => TaskResp.mk "boom" 500 0) 50).2 ≠ 50 := by
  constructor <;> decide

/-- C2 (amended): during transfer-task polling, capacity-exceeded
(code 32003 with "capacity limit" in the message) and destination-missing
(code 41013) responses abort immediately — and so does EVERY other
response whose `message` is not `"ok"`, on first sight; only success
responses with a non-terminal status are retried.  The first non-ok
response at attempt `j` ends the loop after exactly `j + 1` network
calls, classified by its code. -/
theorem submit_task_aborts_on_first_nonok (resp : Nat → TaskResp) (retry j : Nat)
    (hj : j < retry)
    (hpre : ∀ i, i < j → (resp i).message = "ok" ∧ (resp i).status ≠ 2)
    (hbad : (resp j).message ≠ "ok") :
    submit_task resp retry =
      (if (resp j).code = 32003 && strIn "capacity limit" (resp j).message then
         .errCapacity
       else if (resp j).code = 41013 then .errFolderMissing
       else .errOther (resp j).message, j + 1) := by
  have h := submitTaskFrom_abort resp retry 0 j (by omega) (by omega)
    (fun i _ hi => hpre i hi) hbad
  simpa using h

/-- Witness for C2 (amended): two pending responses followed by a
capacity-exceeded response → the loop aborts at the third call. -/
theorem submit_task_aborts_on_first_nonok_witness :
    submit_task
      (fun i => if i < 2 then TaskResp.mk "ok" 0 0
                else TaskResp.mk "capacity limit exceeded" 32003 0) 50 =
      (.errCapacity, 3) := by
  have h := submit_task_aborts_on_first_nonok
    (fun i => if i < 2 then TaskResp.mk "ok" 0 0
              else TaskResp.mk "capacity limit exceeded" 32003 0)
    50 2 (by decide) (by decide) (by decide)
  simpa using h

/-- C3: a task that is never terminal (every response is `ok` with a
non-terminal status, so nothing is classified fatal) consumes exactly the
fixed retry budget of 50 attempts and then raises the transfer-timeout
error (`转存任务超时`); moreover no run of the loop ever performs more
than 50 network calls. -/
theorem submit_task_timeout_after_budget (resp : Nat → TaskResp)
    (hpend : ∀ i, i < 50 → (resp i).message = "ok" ∧ (resp i).status ≠ 2) :
    submit_task resp 50 = (.timeout, 50) ∧
    ∀ g : Nat → TaskResp, (submit_task g 50).2 ≤ 50 := by
  constructor
  · exact submitTaskFrom_pending resp 50 0 (fun i h1 h2 => hpend i (by omega))
  · intro g
    exact submitTaskFrom_calls_le g 50 0

/-- Witness for C3: the constant "ok but still running" response stream
times out after exactly 50 calls. -/
theorem submit_task_timeout_after_budget_witness :
    submit_task (fun _ => TaskResp.mk "ok" 0 0) 50 = (.timeout, 50) :=
  (submit_task_timeout_after_budget (fun _ => TaskResp.mk "ok" 0 0) (by decide)).1

/-- C10: when the resolved share detail reports the requester as owner
(`is_owner == 1`) and the listing is non-empty, `save_share` raises
`网盘中已经存在该文件，无需再次转存` ("the file already exists in the
drive, no need to transfer again") — for every destination folder, every
keyword configuration and every conceivable task outcome, i.e. before any
transfer task is submitted (`.error` results carry no task submission). -/
theorem owner_transfer_refused (stoken : String) (dataList : List DetailItem)
    (folderId : String) (banned : List String) (contents : List FSEntry)
    (sub : SubmitResult) (hs : stoken ≠ "") (hne : dataList ≠ []) :
    save_share_core stoken 1 dataList folderId banned contents sub =
      .error "网盘中已经存在该文件，无需再次转存" := by
  simp [save_share_core, if_neg hs, if_neg hne]

/-- Witness for C10 at a concrete one-file owner share. -/
theorem owner_transfer_refused_witness :
    save_share_core "tok" 1 [DetailItem.mk "f1" "movie" false "t1"] "0" [] [] (.ok 0) =
      .error "网盘中已经存在该文件，无需再次转存" :=
  owner_transfer_refused "tok" [DetailItem.mk "f1" "movie" false "t1"] "0" [] [] (.ok 0)
    (by decide) (by decide)

/-- C6: the 4-byte length is read big-endian first; the little-endian
fallback is used exactly when the big-endian value exceeds the remaining
byte count; and when the little-endian value is then also out of range,
decryption fails with an error instead of returning a message. -/
theorem extract_msg_endianness (content : List Nat) (h4 : 4 ≤ content.length) :
    (bytesBE (content.take 4) ≤ (content.drop 4).length →
      extractMsg content = .ok (.be, (content.drop 4).take (bytesBE (content.take 4)),
        (content.drop 4).drop (bytesBE (content.take 4)))) ∧
    ((content.drop 4).length < bytesBE (content.take 4) →
      bytesLE (content.take 4) ≤ (content.drop 4).length →
      extractMsg content = .ok (.le, (content.drop 4).take (bytesLE (content.take 4)),
        (content.drop 4).drop (bytesLE (content.take 4)))) ∧
    ((content.drop 4).length < bytesBE (content.take 4) →
      (content.drop 4).length < bytesLE (content.take 4) →
      extractMsg content = .error "消息长度解析失败") := by
  have hne : ¬ content.length < 4 := by omega
  refine ⟨?_, ?_, ?_⟩
  · intro h1
    simp only [extractMsg, if_neg hne]
    rw [if_neg (by omega)]
  · intro h1 h2
    simp only [extractMsg, if_neg hne]
    rw [if_pos h1, if_pos h2]
  · intro h1 h2
    simp only [extractMsg, if_neg hne]
    rw [if_pos h1, if_neg (by omega)]

/-- Witness for C6: a 7-byte payload whose big-endian length (2) is in
range — the big-endian reading is used and splits message from corp id. -/
theorem extract_msg_endianness_witness :
    4 ≤ ([0, 0, 0, 2, 97, 98, 99] : List Nat).length ∧
    extractMsg [0, 0, 0, 2, 97, 98, 99] = .ok (.be, [97, 98], [99]) := by
  refine ⟨by decide, ?_⟩
  have h := (extract_msg_endianness [0, 0, 0, 2, 97, 98, 99] (by decide)).1 (by decide)
  simpa using h

/-- C1: with share-generation enabled and a non-empty share id, a listing
holding at least one file and at least one folder triggers exactly one
create-folder call, named `转存_<timestamp>`, and (when the backend
honours it) the transfer target is redirected to the new folder; a
listing with no folders never triggers a creation — whatever the backend
would have answered — and the transfer goes to the original destination. -/
theorem mixed_listing_creates_one_subfolder (pwdId : String) (dataList : List DetailItem)
    (folderId dt newId : String) (hpwd : pwdId ≠ "") :
    (0 < filesCount dataList → 0 < foldersCount dataList →
      planTransfer true pwdId dataList folderId dt (some newId) =
        { createCalls := 1, targetFolder := newId, needCreateFolder := true,
          requestedName := some ("转存_" ++ dt) }) ∧
    (foldersCount dataList = 0 →
      ∀ createResult, planTransfer true pwdId dataList folderId dt createResult =
        { createCalls := 0, targetFolder := folderId, needCreateFolder := false,
          requestedName := none }) := by
  constructor
  · intro hf hd
    have hne : dataList ≠ [] := by
      intro h
      subst h
      simp [filesCount] at hf
    simp only [planTransfer]
    rw [if_pos ⟨trivial, hpwd, hne, hf, hd⟩]
  · intro hd createResult
    simp only [planTransfer]
    rw [if_neg]
    rintro ⟨-, -, -, -, h5⟩
    omega

/-- Witness for C1: a 1-file + 1-folder listing creates exactly one
subfolder and redirects; a files-only listing creates none. -/
theorem mixed_listing_creates_one_subfolder_witness :
    ("p" : String) ≠ "" ∧
    planTransfer true "p"
        [DetailItem.mk "f1" "a.mp4" false "t1", DetailItem.mk "f2" "sub" true "t2"]
        "dest" "20260105_233853" (some "new1") =
      { createCalls := 1, targetFolder := "new1", needCreateFolder := true,
        requestedName := some ("转存_" ++ "20260105_233853") } ∧
    planTransfer true "p" [DetailItem.mk "f3" "b.mp4" false "t3"]
        "dest" "20260105_233853" none =
      { createCalls := 0, targetFolder := "dest", needCreateFolder := false,
        requestedName := none } := by
  refine ⟨by decide, ?_, ?_⟩
  · exact (mixed_listing_creates_one_subfolder "p"
      [DetailItem.mk "f1" "a.mp4" false "t1", DetailItem.mk "f2" "sub" true "t2"]
      "dest" "20260105_233853" "new1" (by decide)).1 (by decide) (by decide)
  · exact (mixed_listing_creates_one_subfolder "p" [DetailItem.mk "f3" "b.mp4" false "t3"]
      "dest" "20260105_233853" "unused" (by decide)).2 (by decide) none

/-- C4 counterexample: the dedup entry is NOT removed 10 seconds after
admission — the timer starts only when handling completes.  A delivery
admitted at t = 0 whose handling takes 5 s keeps its entry until t = 15,
so an identical delivery at t = 12 (more than 10 s after admission) is
still rejected by the code, while the spec's removal-at-admission+10
model admits it. -/
theorem dedup_ttl_counterexample :
    (dedupTrace [⟨0, "u", "m", 5, true⟩, ⟨12, "u", "m", 0, true⟩]).1 = [true, false] ∧
    (specDedupTrace [⟨0, "u", "m", 5, true⟩, ⟨12, "u", "m", 0, true⟩]).1 = [true, true] := by
  constructor <;> decide

/-- C4 (amended): for every (sender, content) pair the guard admits the
first delivery, rejects an identical delivery while the entry is active,
and removes the entry once 10 seconds have elapsed after HANDLING
COMPLETED (admission time + handling duration + 10) — not after
admission — regardless of whether handling succeeded; an identical
delivery after that point is admitted again. -/
theorem dedup_guard_amended (u m : String) (t1 d1 t2 d2 : Nat) (ok1 ok2 : Bool) :
    (dedupStep [] ⟨t1, u, m, d1, ok1⟩).1 = true ∧
    (t2 < t1 + d1 + 10 →
      (dedupStep (dedupStep [] ⟨t1, u, m, d1, ok1⟩).2 ⟨t2, u, m, d2, ok2⟩).1 = false) ∧
    (t1 + d1 + 10 ≤ t2 →
      (dedupStep (dedupStep [] ⟨t1, u, m, d1, ok1⟩).2 ⟨t2, u, m, d2, ok2⟩).1 = true) ∧
    dedupStep [] ⟨t1, u, m, d1, true⟩ = dedupStep [] ⟨t1, u, m, d1, false⟩ := by
  refine ⟨by simp [dedupStep], ?_, ?_, by simp [dedupStep]⟩
  · intro h2
    simp [dedupStep, messageHash, h2]
  · intro h2
    have h3 : ¬ t2 < t1 + d1 + 10 := by omega
    simp [dedupStep, messageHash, h3]

/-- Witness for C4 (amended) at the counterexample's trace: admission at
t = 0 with 5 s handling, identical delivery at t = 12 (rejected: inside
the 0+5+10 window), and success-independence of the schedule. -/
theorem dedup_guard_amended_witness :
    (dedupStep [] ⟨0, "u", "m", 5, true⟩).1 = true ∧
    ((12 : Nat) < 0 + 5 + 10 →
      (dedupStep (dedupStep [] ⟨0, "u", "m", 5, true⟩).2 ⟨12, "u", "m", 0, true⟩).1 = false) ∧
    (0 + 5 + 10 ≤ 12 →
      (dedupStep (dedupStep [] ⟨0, "u", "m", 5, true⟩).2 ⟨12, "u", "m", 0, true⟩).1 = true) ∧
    dedupStep [] ⟨0, "u", "m", 5, true⟩ = dedupStep [] ⟨0, "u", "m", 5, false⟩ :=
  dedup_guard_amended "u" "m" 0 5 12 0 true true

/-- Helper: an element-wise-mapped needle still starts a mapped haystack. -/
theorem listStartsWithB_map {α β : Type} [DecidableEq α] [DecidableEq β] (f : α → β) :
    ∀ n h : List α, listStartsWithB n h = true →
      listStartsWithB (n.map f) (h.map f) = true := by
  intro n
  induction n with
  | nil => intro h _; simp [listStartsWithB]
  | cons a as ih =>
    intro h hs
    cases h with
    | nil => simp [listStartsWithB] at hs
    | cons b bs =>
      simp only [listStartsWithB, Bool.and_eq_true, decide_eq_true_eq] at hs
      simp only [List.map_cons, listStartsWithB, Bool.and_eq_true, decide_eq_true_eq]
      exact ⟨by rw [hs.1], ih bs hs.2⟩

/-- Helper: a mapped needle still occurs inside a mapped haystack. -/
theorem listContainsB_map {α β : Type} [DecidableEq α] [DecidableEq β] (f : α → β) :
    ∀ h n : List α, listContainsB n h = true →
      listContainsB (n.map f) (h.map f) = true := by
  intro h
  induction h with
  | nil =>
    intro n hn
    cases n with
    | nil => simp [listContainsB, listStartsWithB]
    | cons a as => simp [listContainsB, listStartsWithB] at hn
  | cons b bs ih =>
    intro n hn
    simp only [listContainsB, Bool.or_eq_true] at hn
    simp only [List.map_cons, listContainsB, Bool.or_eq_true]
    rcases hn with hpre | hrec
    · left
      have := listStartsWithB_map f n (b :: bs) hpre
      simpa using this
    · right
      exact ih n hrec

/-- Helper: Python's `k in name` implies `k.lower() in name.lower()` —
lower-casing is character-wise, so it preserves substring occurrences. -/
theorem strIn_lower (k name : String) (h : strIn k name = true) :
    strIn (pyLower k) (pyLower name) = true := by
  unfold strIn at h
  unfold strIn pyLower
  exact listContainsB_map Char.toLower name.data k.data h

/-- Helper: a case-sensitive keyword match implies the case-insensitive
one: everything the app-level filter matches, the manager filter matches
too. -/
theorem csMatch_imp_ciMatch (banned : List String) (name : String)
    (h : csMatch banned name = true) : ciMatch banned name = true := by
  simp only [csMatch, List.any_eq_true] at h
  simp only [ciMatch, List.any_eq_true]
  obtain ⟨k, hk, hs⟩ := h
  exact ⟨k, hk, strIn_lower k name hs⟩

/-- Helper: on a flat listing (no entry carries children) the manager
filter's collection phase is exactly the case-insensitive keyword filter
over the listing. -/
theorem managerCollect_flat (banned : List String) :
    ∀ entries : List FSEntry, (∀ e ∈ entries, e.children = []) →
      managerCollect banned entries =
        (entries.filter (fun e => ciMatch banned e.file_name)).map FSEntry.fid := by
  intro entries
  induction entries with
  | nil => intro _; simp [managerCollect]
  | cons e rest ih =>
    intro h
    have hrest := ih (fun x hx => h x (List.mem_cons_of_mem _ hx))
    cases e with
    | mk fid name d ft children =>
      have hch : children = [] := h _ (List.mem_cons_self _ _)
      subst hch
      simp only [managerCollect]
      by_cases hm : ciMatch banned name = true
      · rw [if_pos hm]
        simp [List.filter_cons, FSEntry.file_name, FSEntry.fid, hm, hrest]
      · rw [if_neg hm]
        have hm' : ciMatch banned ((FSEntry.mk fid name d ft []).file_name) = false := by
          simpa [FSEntry.file_name] using eq_false_of_ne_true hm
        by_cases hd : (d || ft == 0) = true
        · rw [if_pos hd]
          simp [managerCollect, List.filter_cons, hm', hrest]
        · rw [if_neg hd]
          simp [List.filter_cons, hm', hrest]

theorem InScan_nil (banned : List String) (e : FSEntry) : ¬ InScan banned [] e := by
  intro h
  cases h with
  | here hm => exact absurd hm (List.not_mem_nil _)
  | deeper hp _ _ _ => exact absurd hp (List.not_mem_nil _)

theorem InScan_cons_iff (banned : List String) (E : FSEntry) (rest : List FSEntry)
    (e : FSEntry) :
    InScan banned (E :: rest) e ↔
      e = E ∨ InScan banned rest e ∨
        (ciMatch banned E.file_name = false ∧ E.isDirB = true ∧
          InScan banned E.children e) := by
  constructor
  · intro h
    cases h with
    | here hm =>
      rcases List.mem_cons.mp hm with rfl | hm
      · exact Or.inl rfl
      · exact Or.inr (Or.inl (InScan.here hm))
    | deeper hp hm hd hsub =>
      rcases List.mem_cons.mp hp with rfl | hp
      · exact Or.inr (Or.inr ⟨hm, hd, hsub⟩)
      · exact Or.inr (Or.inl (InScan.deeper hp hm hd hsub))
  · rintro (rfl | h | ⟨hm, hd, hsub⟩)
    · exact InScan.here (List.mem_cons_self _ _)
    · cases h with
      | here hm => exact InScan.here (List.mem_cons_of_mem _ hm)
      | deeper hp hm hd hsub => exact InScan.deeper (List.mem_cons_of_mem _ hp) hm hd hsub
    · exact InScan.deeper (List.mem_cons_self _ _) hm hd hsub

theorem mem_managerCollect_iff (banned : List String) :
    ∀ (entries : List FSEntry) (x : String),
      x ∈ managerCollect banned entries ↔
        ∃ e, InScan banned entries e ∧ ciMatch banned e.file_name = true ∧ e.fid = x := by
  intro entries
  induction entries using managerCollect.induct banned with
  | case1 =>
    intro x
    simp only [managerCollect, List.not_mem_nil, false_iff, not_exists]
    intro e hc
    exact InScan_nil banned e hc.1
  | case2 fid name d ft children rest hmatch ih =>
    intro x
    have hunf : managerCollect banned (FSEntry.mk fid name d ft children :: rest) =
        fid :: managerCollect banned rest := by
      rw [managerCollect, if_pos hmatch]
    rw [hunf]
    simp only [List.mem_cons]
    constructor
    · rintro (h | hx)
      · exact ⟨FSEntry.mk fid name d ft children,
          InScan.here (List.mem_cons_self _ _), hmatch, h.symm⟩
      · obtain ⟨e, hscan, hm, hfid⟩ := (ih x).mp hx
        exact ⟨e, (InScan_cons_iff banned _ rest e).mpr (Or.inr (Or.inl hscan)), hm, hfid⟩
    · rintro ⟨e, hscan, hm, rfl⟩
      rcases (InScan_cons_iff banned _ rest e).mp hscan with rfl | hscan | ⟨hunm, hdirE, hsub⟩
      · exact Or.inl rfl
      · exact Or.inr ((ih e.fid).mpr ⟨e, hscan, hm, rfl⟩)
      · simp only [FSEntry.file_name] at hunm
        rw [hmatch] at hunm
        exact absurd hunm (by simp)
  | case3 fid name d ft children rest hmatch hdir ih1 ih2 =>
    intro x
    have hm0 : ciMatch banned name = false := eq_false_of_ne_true hmatch
    have hunf : managerCollect banned (FSEntry.mk fid name d ft children :: rest) =
        managerCollect banned children ++ managerCollect banned rest := by
      rw [managerCollect, if_neg hmatch, if_pos hdir]
    rw [hunf]
    simp only [List.mem_append]
    constructor
    · rintro (hx | hx)
      · obtain ⟨e, hscan, hm, hfid⟩ := (ih1 x).mp hx
        exact ⟨e, (InScan_cons_iff banned _ rest e).mpr
          (Or.inr (Or.inr ⟨hm0, hdir, hscan⟩)), hm, hfid⟩
      · obtain ⟨e, hscan, hm, hfid⟩ := (ih2 x).mp hx
        exact ⟨e, (InScan_cons_iff banned _ rest e).mpr (Or.inr (Or.inl hscan)), hm, hfid⟩
    · rintro ⟨e, hscan, hm, rfl⟩
      rcases (InScan_cons_iff banned _ rest e).mp hscan with rfl | hscan | ⟨hunm, hdirE, hsub⟩
      · simp only [FSEntry.file_name] at hm
        rw [hm] at hm0
        exact absurd hm0 (by simp)
      · exact Or.inr ((ih2 e.fid).mpr ⟨e, hscan, hm, rfl⟩)
      · exact Or.inl ((ih1 e.fid).mpr ⟨e, hsub, hm, rfl⟩)
  | case4 fid name d ft children rest hmatch hdir ih =>
    intro x
    have hunf : managerCollect banned (FSEntry.mk fid name d ft children :: rest) =
        managerCollect banned rest := by
      rw [managerCollect, if_neg hmatch, if_neg hdir]
    rw [hunf]
    constructor
    · intro hx
      obtain ⟨e, hscan, hm, hfid⟩ := (ih x).mp hx
      exact ⟨e, (InScan_cons_iff banned _ rest e).mpr (Or.inr (Or.inl hscan)), hm, hfid⟩
    · rintro ⟨e, hscan, hm, rfl⟩
      rcases (InScan_cons_iff banned _ rest e).mp hscan with rfl | hscan | ⟨hunm, hdirE, hsub⟩
      · simp only [FSEntry.file_name] at hm
        exact absurd hm hmatch
      · exact (ih e.fid).mpr ⟨e, hscan, hm, rfl⟩
      · simp only [FSEntry.isDirB] at hdirE
        exact absurd hdirE hdir

/-- C5 counterexample: the post-transfer filter does NOT delete "exactly
those newly-added entries" matching a banned substring — after a
successful transfer of `clean.mp4` with banned keyword `ad`, the filter
run by `save_share` deletes the PRE-EXISTING entry `bad` (fid `x1`),
which is not among the newly-added names, while the spec's
newly-added-only filter deletes nothing. -/
theorem post_filter_counterexample :
    managerFilterDeleteFids ["ad"]
        [FSEntry.mk "x1" "bad" false 1 [], FSEntry.mk "x2" "clean.mp4" false 1 []] = ["x1"] ∧
    specPostFilterDeleteFids ["ad"] ["clean.mp4"]
        [FSEntry.mk "x1" "bad" false 1 [], FSEntry.mk "x2" "clean.mp4" false 1 []] = [] ∧
    save_share_core "tok" 0 [DetailItem.mk "f" "clean.mp4" false "t"] "dest" ["ad"]
        [FSEntry.mk "x1" "bad" false 1 [], FSEntry.mk "x2" "clean.mp4" false 1 []] (.ok 0) =
      .ok { total := 1, files_count := 1, folders_count := 0,
            files_list := ["clean.mp4"], folders_list := [], fid_list := ["f"],
            taskSubmitted := true, deletedFids := ["x1"] } := by
  have hflat : ∀ e ∈ [FSEntry.mk "x1" "bad" false 1 [], FSEntry.mk "x2" "clean.mp4" false 1 []],
      e.children = [] := by
    intro e he
    simp only [List.mem_cons, List.not_mem_nil, or_false] at he
    rcases he with rfl | rfl <;> rfl
  have hman : managerFilterDeleteFids ["ad"]
      [FSEntry.mk "x1" "bad" false 1 [], FSEntry.mk "x2" "clean.mp4" false 1 []] = ["x1"] := by
    simp only [managerFilterDeleteFids]
    rw [if_neg (by decide), managerCollect_flat _ _ hflat]
    decide
  refine ⟨hman, by decide, ?_⟩
  simp only [save_share_core]
  rw [if_neg (by decide), if_neg (by decide), if_neg (by decide), if_neg (by decide), hman]
  rfl

/-- C5 (amended): the post-filter invoked by `save_share` runs
unconditionally after every successful transfer (it is part of
`save_share` itself, which both the plain-transfer and the
share-generation paths call) and deletes exactly those entries of the
destination folder tree — newly-added or pre-existing alike — whose name
contains a banned substring case-insensitively and that are reached by
the scan, i.e. all of whose strict ancestors are case-insensitively
unmatched directories (a matched directory is deleted whole and not
descended into); the additional app-level pass is the one restricted to
newly-added names, it compares case-sensitively, and everything it
deletes the `save_share` filter already deletes. -/
theorem post_filter_unconditional_ci (stoken : String) (isOwner : Int)
    (dataList : List DetailItem) (folderId : String) (banned savedNames : List String)
    (contents : List FSEntry) (i : Nat)
    (hs : stoken ≠ "") (hd : dataList ≠ []) (ho : isOwner ≠ 1) (hf : folderId ≠ "")
    (hb : banned ≠ []) :
    (∃ r : SaveShareResult,
      save_share_core stoken isOwner dataList folderId banned contents (.ok i) = .ok r ∧
      r.taskSubmitted = true ∧
      ∀ x, x ∈ r.deletedFids ↔
        ∃ e, InScan banned contents e ∧ ciMatch banned e.file_name = true ∧ e.fid = x) ∧
    ∀ x ∈ appFilterDeleteFids banned savedNames contents,
      x ∈ managerFilterDeleteFids banned contents := by
  constructor
  · have hcore : save_share_core stoken isOwner dataList folderId banned contents (.ok i) =
        .ok { total := dataList.length,
              files_count := filesCount dataList,
              folders_count := foldersCount dataList,
              files_list := (dataList.filter (fun d => !d.dir)).map DetailItem.file_name,
              folders_list := (dataList.filter (fun d => d.dir)).map DetailItem.file_name,
              fid_list := dataList.map DetailItem.fid,
              taskSubmitted := true,
              deletedFids := managerFilterDeleteFids banned contents } := by
      simp only [save_share_core]
      rw [if_neg hs, if_neg hd, if_neg ho, if_neg hf]
    refine ⟨_, hcore, rfl, ?_⟩
    intro x
    simp only [managerFilterDeleteFids, if_neg hb]
    exact mem_managerCollect_iff banned contents x
  · intro x hx
    simp only [appFilterDeleteFids] at hx
    by_cases h0 : banned = [] ∨ savedNames = []
    · rw [if_pos h0] at hx
      simp at hx
    · rw [if_neg h0] at hx
      simp only [List.mem_map, List.mem_filter, Bool.and_eq_true] at hx
      obtain ⟨e, ⟨he, _hsaved, hcs⟩, hfid⟩ := hx
      simp only [managerFilterDeleteFids, if_neg hb]
      exact (mem_managerCollect_iff banned contents x).mpr
        ⟨e, InScan.here he, csMatch_imp_ciMatch _ _ hcs, hfid⟩

/-- Witness for C5 (amended) at a nested destination tree: a pre-existing
top-level match `bad`, plus an unmatched sub-folder `movies` containing a
deeper match `spam ad`. -/
theorem post_filter_unconditional_ci_witness :
    (∃ r : SaveShareResult,
      save_share_core "tok" 0 [DetailItem.mk "f" "clean.mp4" false "t"] "dest" ["ad"]
          [FSEntry.mk "x1" "bad" false 1 [],
           FSEntry.mk "d1" "movies" true 0 [FSEntry.mk "x3" "spam ad" false 1 []]]
          (.ok 0) = .ok r ∧
      r.taskSubmitted = true ∧
      ∀ x, x ∈ r.deletedFids ↔
        ∃ e, InScan ["ad"]
            [FSEntry.mk "x1" "bad" false 1 [],
             FSEntry.mk "d1" "movies" true 0 [FSEntry.mk "x3" "spam ad" false 1 []]] e ∧
          ciMatch ["ad"] e.file_name = true ∧ e.fid = x) ∧
    ∀ x ∈ appFilterDeleteFids ["ad"] ["clean.mp4"]
        [FSEntry.mk "x1" "bad" false 1 [],
         FSEntry.mk "d1" "movies" true 0 [FSEntry.mk "x3" "spam ad" false 1 []]],
      x ∈ managerFilterDeleteFids ["ad"]
        [FSEntry.mk "x1" "bad" false 1 [],
         FSEntry.mk "d1" "movies" true 0 [FSEntry.mk "x3" "spam ad" false 1 []]] :=
  post_filter_unconditional_ci "tok" 0 [DetailItem.mk "f" "clean.mp4" false "t"] "dest"
    ["ad"] ["clean.mp4"]
    [FSEntry.mk "x1" "bad" false 1 [],
     FSEntry.mk "d1" "movies" true 0 [FSEntry.mk "x3" "spam ad" false 1 []]] 0
    (by decide) (by decide) (by decide) (by decide) (by decide)

/-- Helper: the search-traversal invariant is preserved by every call of
the children-scanning loop, by functional induction on the traversal. -/
theorem searchGo_inv (L : String → List FItem) (kw : String) (maxDepth : Nat)
    (d : Nat) (children : List FItem) (path : String) (visited : List String) :
    visited.Nodup →
    SearchInv visited d maxDepth (searchGo L kw maxDepth d children path visited) := by
  induction d, children, path, visited using searchGo.induct L kw maxDepth with
  | case1 d path visited =>
    intro hv
    simp only [searchGo, SearchInv]
    exact ⟨hv, by simp, by simp, by simp⟩
  | case2 d path visited item rest isDir hdir hguard rf rd v2 log2 heq ih =>
    intro hv
    have hrest := ih hv
    rw [heq] at hrest
    rw [searchGo]
    rw [if_pos hdir, dif_pos hguard, heq]
    exact hrest
  | case3 d path visited item rest isDir hdir subPath hguard sf sd v1 log1 heq1 rf rd v2 log2 heq2 ih1 ih2 =>
    intro hv
    have h1 : item.fid ∉ visited ∧ d + 1 < maxDepth := by
      push_neg at hguard
      exact ⟨hguard.1, by omega⟩
    have hv1 : (item.fid :: visited).Nodup := List.nodup_cons.mpr ⟨h1.1, hv⟩
    have inv1 := ih1 hv1
    rw [heq1] at inv1
    obtain ⟨hn1, hiff1, hlog1nd, hprop1⟩ := inv1
    have inv2 := ih2 (by simpa using hn1)
    rw [heq2] at inv2
    obtain ⟨hn2, hiff2, hlog2nd, hprop2⟩ := inv2
    simp only at hn1 hiff1 hlog1nd hprop1 hn2 hiff2 hlog2nd hprop2
    have hmem1 : ∀ x, x ∈ log1.map Prod.fst → x ∈ v1 :=
      fun x hx => (hiff1 x).mpr (Or.inl hx)
    have hmem1n : ∀ x, x ∈ log1.map Prod.fst → x ∉ (item.fid :: visited) := by
      intro x hx
      obtain ⟨p, hp, rfl⟩ := List.mem_map.mp hx
      exact (hprop1 p hp).1
    have hfidv1 : item.fid ∈ v1 := (hiff1 _).mpr (Or.inr (List.mem_cons_self _ _))
    have hmem2n : ∀ x, x ∈ log2.map Prod.fst → x ∉ v1 := by
      intro x hx
      obtain ⟨p, hp, rfl⟩ := List.mem_map.mp hx
      exact (hprop2 p hp).1
    rw [searchGo]
    have heq1' : searchGo L kw maxDepth (d + 1) (L item.fid)
        (if path = "" then item.file_name else path ++ "/" ++ item.file_name)
        (item.fid :: visited) = (sf, sd, v1, log1) := heq1
    rw [if_pos hdir, dif_neg hguard]
    simp only [heq1', heq2]
    refine ⟨hn2, ?_, ?_, ?_⟩
    · intro x
      simp only [List.map_cons, List.map_append, List.mem_cons, List.mem_append]
      rw [hiff2 x, hiff1 x]
      simp only [List.mem_cons]
      tauto
    · simp only [List.map_cons, List.map_append]
      rw [List.nodup_cons]
      refine ⟨?_, List.Nodup.append hlog1nd hlog2nd ?_⟩
      · simp only [List.mem_append]
        rintro (hx | hx)
        · exact hmem1n _ hx (List.mem_cons_self _ _)
        · exact hmem2n _ hx hfidv1
      · intro a ha1 ha2
        exact hmem2n a ha2 (hmem1 a ha1)
    · intro p hp
      simp only [List.mem_cons, List.mem_append] at hp
      rcases hp with rfl | hp | hp
      · exact ⟨h1.1, by omega, h1.2⟩
      · have hq := hprop1 p hp
        have hd1 := hq.2.1
        exact ⟨fun hc => hq.1 (List.mem_cons_of_mem _ hc), by omega, hq.2.2⟩
      · have hq := hprop2 p hp
        have hnv : p.1 ∉ visited := fun hc =>
          hq.1 ((hiff1 p.1).mpr (Or.inr (List.mem_cons_of_mem _ hc)))
        exact ⟨hnv, hq.2.1, hq.2.2⟩
  | case4 d path visited item rest isDir hdir rf rd v2 log2 heq ih =>
    intro hv
    have hrest := ih hv
    rw [heq] at hrest
    rw [searchGo]
    rw [if_neg hdir, heq]
    exact hrest

/-- C7: for every backend listing function (cyclic folder graphs
included), every keyword and every starting folder, the recursive search
with the fixed depth bound 10 is a total function (its very definition —
accepted by termination checking — is the termination argument), its
expansion log names each folder id at most once (the visited-set
guarantee), its final visited set is duplicate-free, and no folder is
expanded at depth 10 or beyond (every logged expansion depth is < 10). -/
theorem search_cycle_safe (L : String → List FItem) (kw folderId rootPath : String) :
    ((searchFilesRecursive L kw folderId rootPath 10).2.2.2.map Prod.fst).Nodup ∧
    (searchFilesRecursive L kw folderId rootPath 10).2.2.1.Nodup ∧
    ∀ p ∈ (searchFilesRecursive L kw folderId rootPath 10).2.2.2, p.2 < 10 := by
  have hinv := searchGo_inv L kw 10 0 (L folderId) rootPath [folderId] (by simp)
  rcases heq : searchGo L kw 10 0 (L folderId) rootPath [folderId] with ⟨fs, ds, v, log⟩
  rw [heq] at hinv
  obtain ⟨hn, hiff, hlognd, hprop⟩ := hinv
  simp only at hn hiff hlognd hprop
  have hres : searchFilesRecursive L kw folderId rootPath 10 =
      (fs, ds, v, (folderId, 0) :: log) := by
    unfold searchFilesRecursive
    rw [if_neg (by omega)]
    simp only [heq]
  rw [hres]
  refine ⟨?_, hn, ?_⟩
  · simp only [List.map_cons]
    rw [List.nodup_cons]
    refine ⟨?_, hlognd⟩
    intro hc
    obtain ⟨p, hp, hpe⟩ := List.mem_map.mp hc
    exact (hprop p hp).1 (by simp [hpe])
  · intro p hp
    simp only [List.mem_cons] at hp
    rcases hp with rfl | hp
    · simp
    · exact (hprop p hp).2.2
